import Mathlib

/-!
Verification of the AI-Excel-analyzer core (column resolver, unique-value
extractor, combination generator, pivot simulator, fallback analysis) against
its natural-language specification.  Python strings are embedded as lists of
characters; pandas DataFrames as a header list (name and dtype per column)
together with a row list; numeric cell values as rationals.
-/

namespace ExcelAnalyzer

/-- Python strings, embedded as lists of characters. -/
abbrev Str := List Char

/-- Python `str.lower()` (character-wise lowering, as done for ASCII names). -/
def lowerStr (s : Str) : Str := s.map Char.toLower

/-- Leading-whitespace removal, the first half of Python `str.strip()`. -/
def trimL (s : Str) : Str := s.dropWhile Char.isWhitespace

/-- Python `str.strip()`: drop leading and trailing whitespace. -/
def trimStr (s : Str) : Str := ((trimL s).reverse.dropWhile Char.isWhitespace).reverse

/-- Python `a.startswith(b)` on character lists (`b` is the candidate start). -/
def hasPre : Str → Str → Bool
  | [], _ => true
  | _ :: _, [] => false
  | a :: as, b :: bs => a == b && hasPre as bs

/-- Python `needle in hay` substring containment on character lists. -/
def isSub (needle : Str) : Str → Bool
  | [] => needle.isEmpty
  | h :: t => hasPre needle (h :: t) || isSub needle t

/-- The bidirectional fuzzy-match rule used by both column-resolution loops in
`excel.py`: with `cs` the stripped column name, the slicer name lowercased is a
substring of `cs` lowercased, or vice versa, or the two are equal lowercased. -/
def slicerMatch (q c : Str) : Bool :=
  let cs := trimStr c
  isSub (lowerStr q) (lowerStr cs) || isSub (lowerStr cs) (lowerStr q) ||
    lowerStr cs == lowerStr q

/-- Column resolution as in `get_unique_slicer_values` (excel.py lines 45-60):
collect every column passing `slicerMatch`, take the first; if none passed,
fall back to an exact case-sensitive membership test of the raw slicer name. -/
def resolveGU (cols : List Str) (q : Str) : Option Str :=
  match cols.filter (fun c => slicerMatch q c) with
  | c :: _ => some c
  | [] => if q ∈ cols then some q else none

/-- Column resolution as in the filter loop of `refresh_pivot_and_read`
(excel.py lines 100-109): first column passing `slicerMatch`, no fallback. -/
def resolveRP (cols : List Str) (q : Str) : Option Str :=
  (cols.filter (fun c => slicerMatch q c)).head?

/- ### Basic facts about `hasPre`, `isSub`, `trimStr` -/

theorem hasPre_of_pre {a b : Str} (h : a <+: b) : hasPre a b = true := by
  induction a generalizing b with
  | nil => simp [hasPre]
  | cons x xs ih =>
    obtain ⟨t, ht⟩ := h
    cases b with
    | nil => simp at ht
    | cons y ys =>
      simp only [List.cons_append, List.cons.injEq] at ht
      obtain ⟨rfl, hys⟩ := ht
      simp [hasPre, ih ⟨t, hys⟩]

theorem isSub_intro {a b : Str} (h : a <:+: b) : isSub a b = true := by
  induction b with
  | nil =>
    obtain ⟨s, t, hst⟩ := h
    rcases List.append_eq_nil.mp hst with ⟨h1, -⟩
    rcases List.append_eq_nil.mp h1 with ⟨-, rfl⟩
    simp [isSub, List.isEmpty]
  | cons y ys ih =>
    obtain ⟨s, t, hst⟩ := h
    cases s with
    | nil =>
      have hpre : a <+: y :: ys := ⟨t, by simpa using hst⟩
      simp [isSub, hasPre_of_pre hpre]
    | cons z zs =>
      simp only [List.cons_append, List.cons.injEq] at hst
      have : a <:+: ys := ⟨zs, t, hst.2⟩
      simp [isSub, ih this]

theorem trimStr_within (s : Str) : trimStr s <:+: s := by
  have h1 : trimL s <:+ s := List.dropWhile_suffix _
  have h2 : (trimL s).reverse.dropWhile Char.isWhitespace <:+ (trimL s).reverse :=
    List.dropWhile_suffix _
  have h3 : trimStr s <+: trimL s := by
    have h4 := List.reverse_prefix.mpr h2
    simpa [trimStr] using h4
  obtain ⟨t1, ht⟩ := h3
  obtain ⟨s1, hs⟩ := h1
  exact ⟨s1, t1, by rw [List.append_assoc, ht, hs]⟩

theorem infix_map_lower {a b : Str} (h : a <:+: b) : lowerStr a <:+: lowerStr b := by
  obtain ⟨s, t, rfl⟩ := h
  exact ⟨lowerStr s, lowerStr t, by simp [lowerStr]⟩

/-- A slicer name always fuzzy-matches the identically named column. -/
theorem slicerMatch_self (q : Str) : slicerMatch q q = true := by
  have h : isSub (lowerStr (trimStr q)) (lowerStr q) = true :=
    isSub_intro (infix_map_lower (trimStr_within q))
  simp [slicerMatch, h]

/- ### Decimal rendering of numbers (Python `str`/format, restricted to the
shapes the program produces).  `natReprCore` runs on explicit fuel so that it
stays structurally recursive and kernel-evaluable. -/

def digitChar (d : Nat) : Char := Char.ofNat (48 + d)

def natReprCore : Nat → Nat → Str
  | 0, _ => []
  | fuel + 1, n => if n < 10 then [digitChar n] else natReprCore fuel (n / 10) ++ [digitChar (n % 10)]

/-- Decimal rendering of a natural number. -/
def natRepr (n : Nat) : Str := natReprCore (n + 1) n

/-- Decimal rendering of an integer. -/
def intRepr (i : Int) : Str := if i < 0 then '-' :: natRepr i.natAbs else natRepr i.natAbs

/-- Python `str()` of a numeric cell value.  Whole numbers render as pandas
floats (`"10.0"`); a non-integer rational renders as numerator/denominator
(an abstraction of shortest-float decimal output; no claim inspects it). -/
def numRepr (q : ℚ) : Str :=
  if q.den = 1 then intRepr q.num ++ ".0".toList
  else intRepr q.num ++ '/' :: natRepr q.den

/-- Round to the nearest integer, ties to even (Python float formatting). -/
def roundHalfEven (x : ℚ) : ℤ :=
  if x - ⌊x⌋ < 1 / 2 then ⌊x⌋
  else if (1 : ℚ) / 2 < x - ⌊x⌋ then ⌊x⌋ + 1
  else if 2 ∣ ⌊x⌋ then ⌊x⌋ else ⌊x⌋ + 1

def groupAux : Nat → Str → Str
  | _, [] => []
  | 0, c :: rest => ',' :: c :: groupAux 2 rest
  | k + 1, c :: rest => c :: groupAux k rest

/-- Insert a comma before every group of three digits, counted from the right. -/
def groupThrees (ds : Str) : Str := (groupAux 3 ds.reverse).reverse

def padTwo (n : Nat) : Str := if n < 10 then '0' :: natRepr n else natRepr n

/-- Python `"{:,.2f}".format`: comma-grouped, two decimal places. -/
def fmtComma2 (q : ℚ) : Str :=
  let cents := roundHalfEven (q * 100)
  (if cents < 0 then ['-'] else []) ++
    groupThrees (natRepr (cents.natAbs / 100)) ++ '.' :: padTwo (cents.natAbs % 100)

/- ### The data model: cells, dtypes, tables -/

/-- A cell of a loaded table: a numeric value, a text value, or missing (NaN). -/
inductive Cell where
  | num (q : ℚ)
  | str (s : Str)
  | missing
deriving DecidableEq

/-- The pandas dtype of a column, as far as the program inspects it
(`select_dtypes(include=['number'])` and `['object', 'string']`). -/
inductive Dtype where
  | numeric
  | text
  | other
deriving DecidableEq

/-- Python `str()` of a cell, as produced by `astype(str)`: missing values
stringify to `"nan"`. -/
def cellStr : Cell → Str
  | .num q => numRepr q
  | .str s => s
  | .missing => "nan".toList

/-- A pandas DataFrame: named, dtyped columns and a list of rows. -/
structure Table where
  headers : List (Str × Dtype)
  rows : List (List Cell)
deriving DecidableEq

def colNames (t : Table) : List Str := t.headers.map Prod.fst

/-- The cells of the column labelled `name` (label lookup by first position). -/
def colCells (t : Table) (name : Str) : List Cell :=
  t.rows.map (fun r => r.getD ((colNames t).indexOf name) Cell.missing)

/-- One filtering step of `refresh_pivot_and_read` (excel.py line 112):
keep the rows whose string-cast, stripped cell equals the stripped target. -/
def filterRows (t : Table) (col : Str) (v : Str) : Table :=
  ⟨t.headers, t.rows.filter (fun r =>
      trimStr (cellStr (r.getD ((colNames t).indexOf col) Cell.missing)) == trimStr v)⟩

/-- Processing of one `(slicer_name, slicer_value)` pair (excel.py 98-113):
resolve against the current table's columns; skip silently on no match. -/
def stepFilter (acc : Table) (p : Str × Str) : Table :=
  match resolveRP (colNames acc) p.1 with
  | none => acc
  | some col => filterRows acc col p.2

/-- The full filter loop of `refresh_pivot_and_read` over a FilterSet. -/
def applyFilters (t : Table) (fs : List (Str × Str)) : Table :=
  fs.foldl stepFilter t

/-- The numeric columns of a table (`select_dtypes(include=['number'])`). -/
def numericHeaders (t : Table) : List (Str × Dtype) :=
  t.headers.filter (fun h => decide (h.2 = Dtype.numeric))

def textHeaders (t : Table) : List (Str × Dtype) :=
  t.headers.filter (fun h => decide (h.2 = Dtype.text))

/- ### Numeric aggregation (pandas sum/mean/count/min/max, skipping NaN) -/

def numsOf (cells : List Cell) : List ℚ :=
  cells.filterMap (fun c => match c with | .num q => some q | _ => none)

def isNA : Cell → Bool
  | .missing => true
  | _ => false

def colSum (cells : List Cell) : ℚ := (numsOf cells).sum

/-- pandas `count()`: the number of non-missing entries. -/
def colCount (cells : List Cell) : Nat := (cells.filter (fun c => !isNA c)).length

def colMeanCell (cells : List Cell) : Cell :=
  if colCount cells = 0 then .missing else .num (colSum cells / colCount cells)

def colMinCell (cells : List Cell) : Cell :=
  match numsOf cells with
  | [] => .missing
  | x :: xs => .num (xs.foldl min x)

def colMaxCell (cells : List Cell) : Cell :=
  match numsOf cells with
  | [] => .missing
  | x :: xs => .num (xs.foldl max x)

def summaryHeaders : List (Str × Dtype) :=
  [("Metric".toList, Dtype.text), ("Sum".toList, Dtype.numeric),
   ("Average".toList, Dtype.numeric), ("Count".toList, Dtype.numeric),
   ("Min".toList, Dtype.numeric), ("Max".toList, Dtype.numeric)]

/-- One summary row (excel.py 131-138). -/
def colStats (f : Table) (name : Str) : List Cell :=
  [Cell.str name, Cell.num (colSum (colCells f name)), colMeanCell (colCells f name),
   Cell.num ((colCount (colCells f name) : ℚ)), colMinCell (colCells f name),
   colMaxCell (colCells f name)]

/-- The numeric-summary table built from `summary_data` (excel.py 129-142). -/
def summaryTable (f : Table) : Table :=
  ⟨summaryHeaders, (numericHeaders f).map (fun h => colStats f h.1)⟩

def emptyTable : Table := ⟨[], []⟩

def fdName (sheet : Str) : Str := "Filtered_Data_".toList ++ sheet
def sumName (sheet : Str) : Str := "Summary_".toList ++ sheet
def emptyName (sheet : Str) : Str := "Empty_".toList ++ sheet

/-- Pivot simulation (excel.py 85-149, the part after loading): apply the
FilterSet, then return the named output tables in insertion order. -/
def refresh_pivot_and_read (sheet : Str) (t : Table) (fs : List (Str × Str)) :
    List (Str × Table) :=
  let f := applyFilters t fs
  if 0 < f.rows.length then
    if 0 < (numericHeaders f).length then
      [(fdName sheet, f), (sumName sheet, summaryTable f)]
    else
      [(fdName sheet, f)]
  else
    [(emptyName sheet, emptyTable)]

/- ### The unique-value extractor (excel.py 62-74) -/

/-- First-seen–order deduplication (pandas `unique()`), with an accumulator of
already-seen values so that the recursion is structural. -/
def dedupAux {α : Type} [DecidableEq α] : List α → List α → List α
  | _, [] => []
  | seen, v :: rest => if v ∈ seen then dedupAux seen rest else v :: dedupAux (v :: seen) rest

/-- `dropna().astype(str).str.strip()` followed by dropping empty strings. -/
def cleanedCells (cells : List Cell) : List Str :=
  (cells.filterMap (fun c => match c with
      | Cell.missing => none
      | c => some (trimStr (cellStr c)))).filter (fun s => !s.isEmpty)

def skipTerms : List Str :=
  ["total".toList, "grand total".toList, "sum".toList, "average".toList,
   "avg".toList, "(blank)".toList, "blank".toList]

/-- A value "looks like a total or summary": some noise term occurs in its
lower-cased form (excel.py 68-70). -/
def hasNoise (v : Str) : Bool := skipTerms.any (fun term => isSub term (lowerStr v))

/-- The value-cleaning pipeline of `get_unique_slicer_values` (excel.py 62-74). -/
def extractValues (cells : List Cell) : List Str :=
  (dedupAux [] (cleanedCells cells)).filter (fun v => !hasNoise v)

/-- `get_unique_slicer_values` (excel.py 34-81, the part after loading):
resolve the slicer column, then extract cleaned unique values; an unresolved
column yields the empty list. -/
def get_unique_slicer_values (t : Table) (slicer : Str) : List Str :=
  match resolveGU (colNames t) slicer with
  | some col => extractValues (colCells t col)
  | none => []

/- ### The combination generator (main.py 21-24) -/

/-- `itertools.product`, leftmost factor varying slowest. -/
def cartProd {α : Type} : List (List α) → List (List α)
  | [] => [[]]
  | vs :: rest => (vs.map (fun v => (cartProd rest).map (fun c => v :: c))).flatten

/-- `generate_slicer_combinations`: the Cartesian product of the value lists,
re-zipped with the field names in registration order. -/
def generate_slicer_combinations (m : List (Str × List Str)) : List (List (Str × Str)) :=
  (cartProd (m.map Prod.snd)).map (fun combo => (m.map Prod.fst).zip combo)

/- ### Fallback analysis (open_ai.py 115-149) and `analyze_dataframe` -/

/-- Python `"\n".join`. -/
def joinNL : List Str → Str
  | [] => []
  | [p] => p
  | p :: q :: rest => p ++ '\n' :: joinNL (q :: rest)

/-- `- {col}: Total = {total:,.2f}, Average = {avg:,.2f}` (open_ai.py 129);
an undefined mean (all-missing column) formats as the float `nan` does. -/
def numericLine (t : Table) (name : Str) : Str :=
  "- ".toList ++ name ++ ": Total = ".toList ++ fmtComma2 (colSum (colCells t name)) ++
    ", Average = ".toList ++
    (match colMeanCell (colCells t name) with
     | Cell.num q => fmtComma2 q
     | _ => "nan".toList)

/-- pandas `nunique()`: the number of distinct non-missing values. -/
def nuniqueCol (cells : List Cell) : Nat :=
  (dedupAux [] (cells.filterMap (fun c => if isNA c then none else some (cellStr c)))).length

/-- `- {col}: {unique_count} unique values` (open_ai.py 137). -/
def catLine (t : Table) (name : Str) : Str :=
  "- ".toList ++ name ++ ": ".toList ++ natRepr (nuniqueCol (colCells t name)) ++
    " unique values".toList

/-- `df.isnull().sum().sum()`: the total number of missing cells. -/
def missingTotal (t : Table) : Nat :=
  (t.rows.map (fun r => (r.filter isNA).length)).sum

/-- The `analysis_parts` list of `generate_fallback_analysis` (open_ai.py 117-147). -/
def fallbackParts (t : Table) : List Str :=
  ["BASIC DATA ANALYSIS:".toList,
   "- Dataset contains ".toList ++ natRepr t.rows.length ++ " records across ".toList ++
     natRepr t.headers.length ++ " fields".toList] ++
  (if 0 < (numericHeaders t).length then
    "\nNUMERIC ANALYSIS:".toList :: (numericHeaders t).map (fun h => numericLine t h.1)
   else []) ++
  (if 0 < (textHeaders t).length then
    "\nCATEGORICAL ANALYSIS:".toList :: ((textHeaders t).take 3).map (fun h => catLine t h.1)
   else []) ++
  (if 0 < missingTotal t then
    ["\nDATA QUALITY:".toList,
     "- ".toList ++ natRepr (missingTotal t) ++ " missing values detected".toList]
   else []) ++
  ["\nRECOMMENDATION:".toList,
   "- Review the data for completeness and accuracy".toList,
   "- Consider trends and patterns in the numeric values".toList]

/-- `generate_fallback_analysis` (open_ai.py 115-149). -/
def generate_fallback_analysis (t : Table) : Str := joinNL (fallbackParts t)

/-- `analyze_dataframe` (open_ai.py 12-74) with the external chat call made an
explicit parameter: on success the stripped response content, on any failure
the error banner followed by the local fallback analysis. -/
def analyze_dataframe (dispatch : Except Str Str) (t : Table) : Str :=
  match dispatch with
  | Except.ok content => trimStr content
  | Except.error e =>
      "❌ OpenAI Analysis Error: ".toList ++ e ++
        "\n\nFallback Analysis:\n".toList ++ generate_fallback_analysis t

/- ### Shared helper lemmas -/

theorem filter_slicerMatch_ne_nil {cols : List Str} {q : Str} (hq : q ∈ cols) :
    cols.filter (fun c => slicerMatch q c) ≠ [] :=
  List.ne_nil_of_mem (List.mem_filter.mpr ⟨hq, slicerMatch_self q⟩)

/- ### Claim theorems -/

/-- Claim C10: the exact-membership fallback branch in `get_unique_slicer_values`
is unreachable — a query that is literally one of the columns already passes the
case-insensitive substring loop — so the column chosen by
`get_unique_slicer_values` equals, on every input, the column chosen by the
resolver loop of `refresh_pivot_and_read`, which has no exact-match rule. -/
theorem resolver_equivalence :
    (∀ (cols : List Str) (q : Str), resolveGU cols q = resolveRP cols q) ∧
    (∀ (cols : List Str) (q : Str), q ∈ cols →
      slicerMatch q q = true ∧ cols.filter (fun c => slicerMatch q c) ≠ []) := by
  constructor
  · intro cols q
    unfold resolveGU resolveRP
    rcases hf : cols.filter (fun c => slicerMatch q c) with _ | ⟨c, rest⟩
    · have hq : q ∉ cols := by
        intro hmem
        exact filter_slicerMatch_ne_nil hmem hf
      simp [hq]
    · simp
  · intro cols q hq
    exact ⟨slicerMatch_self q, filter_slicerMatch_ne_nil hq⟩

theorem resolver_equivalence_witness :
    resolveGU ["Client".toList] "Client".toList = resolveRP ["Client".toList] "Client".toList ∧
    slicerMatch "Client".toList "Client".toList = true :=
  ⟨resolver_equivalence.1 _ _,
   (resolver_equivalence.2 ["Client".toList] "Client".toList (by decide)).1⟩

/-- Claim C1 is false on the code: with columns `["Cli", "Client"]` and query
`"Client"`, the query is an exact case-sensitive match of the column `"Client"`,
yet resolution returns `"Cli"` — the earlier column passing the case-insensitive
substring rule — because the exact test is only a fallback that runs after the
substring loop, not before it. -/
theorem resolve_exact_priority_cex :
    "Client".toList ∈ ["Cli".toList, "Client".toList] ∧
    resolveGU ["Cli".toList, "Client".toList] "Client".toList ≠ some "Client".toList ∧
    resolveGU ["Cli".toList, "Client".toList] "Client".toList = some "Cli".toList := by
  decide

/-- Claim C1 (amended): if the query is an exact case-sensitive match of some
column, resolution never falls through to "no match" — the substring rule
already accepts at least that column — and the resolver returns the first
column (in table order) passing the case-insensitive substring rule, which need
not be the exactly matching column. -/
theorem resolve_exact_match (cols : List Str) (q : Str) (hq : q ∈ cols) :
    cols.filter (fun c => slicerMatch q c) ≠ [] ∧
    resolveGU cols q = (cols.filter (fun c => slicerMatch q c)).head? := by
  refine ⟨filter_slicerMatch_ne_nil hq, ?_⟩
  unfold resolveGU
  rcases hf : cols.filter (fun c => slicerMatch q c) with _ | ⟨c, rest⟩
  · exact absurd hf (filter_slicerMatch_ne_nil hq)
  · simp

theorem resolve_exact_match_witness :
    ["Region".toList].filter (fun c => slicerMatch "Region".toList c) ≠ [] ∧
    resolveGU ["Region".toList] "Region".toList =
      (["Region".toList].filter (fun c => slicerMatch "Region".toList c)).head? :=
  resolve_exact_match _ _ (by decide)

/-- The Region/Amount layout used by several witnesses (spec §8 scenario). -/
def tRegion : Table :=
  ⟨[("Region".toList, Dtype.text)],
   [[Cell.str "A".toList], [Cell.str "A".toList], [Cell.str "B".toList]]⟩

/-- Claim C2 is false on the code for a zero-row input table: filtering an
empty table with the empty FilterSet yields only the empty-marker entry, so the
result has no filtered-data entry at all (in particular none equal to the input
table, which still has its column). -/
theorem empty_filterset_identity_cex :
    (refresh_pivot_and_read "S".toList (Table.mk [("A".toList, Dtype.text)] []) []).lookup
        (fdName "S".toList) = none ∧
    refresh_pivot_and_read "S".toList (Table.mk [("A".toList, Dtype.text)] []) [] =
      [(emptyName "S".toList, emptyTable)] := by
  decide

/-- Claim C2 (amended): for every table with at least one row, the Pivot
Simulator applied with the empty FilterSet returns a PivotResult whose
filtered-data entry is the input table itself, unchanged row for row. -/
theorem empty_filterset_identity (sheet : Str) (t : Table) (ht : 0 < t.rows.length) :
    (refresh_pivot_and_read sheet t []).lookup (fdName sheet) = some t := by
  have happ : applyFilters t [] = t := rfl
  unfold refresh_pivot_and_read
  rw [happ, if_pos ht]
  by_cases hn : 0 < (numericHeaders t).length
  · rw [if_pos hn]
    simp [List.lookup]
  · rw [if_neg hn]
    simp [List.lookup]

theorem empty_filterset_identity_witness :
    (refresh_pivot_and_read "S".toList tRegion []).lookup (fdName "S".toList) = some tRegion :=
  empty_filterset_identity _ _ (by decide)

/-- The number of rows of a table. -/
def rowCount (t : Table) : Nat := t.rows.length

theorem stepFilter_none (acc : Table) (p : Str × Str)
    (h : resolveRP (colNames acc) p.1 = none) : stepFilter acc p = acc := by
  unfold stepFilter
  rw [h]

theorem stepFilter_le (acc : Table) (p : Str × Str) :
    rowCount (stepFilter acc p) ≤ rowCount acc := by
  unfold stepFilter
  rcases resolveRP (colNames acc) p.1 with _ | col
  · exact le_refl _
  · exact List.length_filter_le _ _

/-- Claim C3: appending one more (field, value) pair to a FilterSet never
increases the row count of the filtered table — each filter step either leaves
the working row set unchanged (unresolvable field) or intersects it. -/
theorem filter_monotone (t : Table) (fs : List (Str × Str)) (p : Str × Str) :
    rowCount (applyFilters t (fs ++ [p])) ≤ rowCount (applyFilters t fs) := by
  unfold applyFilters
  rw [List.foldl_append, List.foldl_cons, List.foldl_nil]
  exact stepFilter_le _ _

theorem cartProd_length {α : Type} (L : List (List α)) :
    (cartProd L).length = (L.map List.length).prod := by
  induction L with
  | nil => rfl
  | cons vs rest ih =>
    simp only [cartProd, List.length_flatten, List.map_map, List.map_cons, List.prod_cons]
    have h1 : (List.map (List.length ∘ fun v => List.map (fun c => v :: c) (cartProd rest)) vs) =
        List.map (fun _ => (cartProd rest).length) vs := by
      apply List.map_congr_left
      intro a _
      simp
    rw [h1, List.map_const', List.sum_replicate, smul_eq_mul, ih]

/-- Claim C4: the Combination Generator yields exactly the product of the
per-field value-list lengths; it yields the empty sequence as soon as one field
has no values, and exactly one empty FilterSet for the empty field map. -/
theorem combination_cardinality :
    (∀ m : List (Str × List Str),
      (generate_slicer_combinations m).length = (m.map (fun p => p.2.length)).prod) ∧
    (∀ m : List (Str × List Str), (∃ p ∈ m, p.2 = []) →
      generate_slicer_combinations m = []) ∧
    generate_slicer_combinations [] = [[]] := by
  have hlen : ∀ m : List (Str × List Str),
      (generate_slicer_combinations m).length = (m.map (fun p => p.2.length)).prod := by
    intro m
    unfold generate_slicer_combinations
    rw [List.length_map, cartProd_length, List.map_map]
    rfl
  refine ⟨hlen, ?_, rfl⟩
  rintro m ⟨p, hp, hp2⟩
  have h0 : (generate_slicer_combinations m).length = 0 := by
    rw [hlen]
    apply List.prod_eq_zero
    exact List.mem_map.mpr ⟨p, hp, by rw [hp2]; rfl⟩
  exact List.length_eq_zero.mp h0

theorem combination_cardinality_witness :
    generate_slicer_combinations [("a".toList, ([] : List Str))] = [] ∧
    (generate_slicer_combinations [("a".toList, ["x".toList, "y".toList])]).length = 2 := by
  constructor
  · exact combination_cardinality.2.1 _ ⟨("a".toList, []), List.mem_singleton_self _, rfl⟩
  · rw [combination_cardinality.1]
    decide

/-- Claim C6: if filtering leaves zero rows, the PivotResult is exactly one
entry — the empty-marker table named by the sheet — with no filtered-data and
no numeric-summary entry. -/
theorem zero_row_result (sheet : Str) (t : Table) (fs : List (Str × Str))
    (h : (applyFilters t fs).rows.length = 0) :
    refresh_pivot_and_read sheet t fs = [(emptyName sheet, emptyTable)] := by
  simp [refresh_pivot_and_read, h]

theorem zero_row_result_witness :
    refresh_pivot_and_read "S".toList tRegion [("Region".toList, "Z".toList)] =
      [(emptyName "S".toList, emptyTable)] :=
  zero_row_result _ _ _ (by decide)

/-- Claim C8: a (field, value) pair whose field resolves to no column of the
working table is skipped silently — the working rows are unchanged and the
remaining filters are still applied — so deleting that pair from the FilterSet
does not change the result of the filter loop. -/
theorem unresolved_filter_skipped (t : Table) (fs1 fs2 : List (Str × Str)) (f v : Str)
    (h : resolveRP (colNames (applyFilters t fs1)) f = none) :
    applyFilters t (fs1 ++ (f, v) :: fs2) = applyFilters t (fs1 ++ fs2) := by
  unfold applyFilters
  rw [List.foldl_append, List.foldl_append, List.foldl_cons, stepFilter_none _ _ h]

theorem unresolved_filter_skipped_witness :
    applyFilters tRegion ([] ++ ("ZZZ".toList, "x".toList) :: []) = applyFilters tRegion ([] ++ []) :=
  unresolved_filter_skipped tRegion [] [] _ _ (by decide)

theorem mem_dedupAux {α : Type} [DecidableEq α] (l : List α) :
    ∀ (seen : List α) (x : α), x ∈ dedupAux seen l → x ∈ l ∧ x ∉ seen := by
  induction l with
  | nil => intro seen x h; simp [dedupAux] at h
  | cons v rest ih =>
    intro seen x h
    by_cases hv : v ∈ seen
    · rw [dedupAux, if_pos hv] at h
      obtain ⟨h1, h2⟩ := ih seen x h
      exact ⟨List.mem_cons_of_mem _ h1, h2⟩
    · rw [dedupAux, if_neg hv] at h
      rcases List.mem_cons.mp h with rfl | h2
      · exact ⟨List.mem_cons_self _ _, hv⟩
      · obtain ⟨h3, h4⟩ := ih (v :: seen) x h2
        exact ⟨List.mem_cons_of_mem _ h3, fun hx => h4 (List.mem_cons_of_mem _ hx)⟩

theorem dedupAux_nodup {α : Type} [DecidableEq α] (l : List α) :
    ∀ seen : List α, (dedupAux seen l).Nodup := by
  induction l with
  | nil => intro seen; simp [dedupAux]
  | cons v rest ih =>
    intro seen
    by_cases hv : v ∈ seen
    · rw [dedupAux, if_pos hv]; exact ih seen
    · rw [dedupAux, if_neg hv]
      refine List.nodup_cons.mpr ⟨?_, ih (v :: seen)⟩
      intro hmem
      exact (mem_dedupAux rest (v :: seen) v hmem).2 (List.mem_cons_self _ _)

/-- The position of the first occurrence of a value in a list (list length when
absent), used to state first-seen ordering. -/
def firstIdx {α : Type} [DecidableEq α] : List α → α → Nat
  | [], _ => 0
  | a :: rest, v => if a = v then 0 else firstIdx rest v + 1

theorem firstIdx_cons_self {α : Type} [DecidableEq α] (v : α) (rest : List α) :
    firstIdx (v :: rest) v = 0 := by
  simp [firstIdx]

theorem firstIdx_cons_ne {α : Type} [DecidableEq α] {a v : α} (rest : List α) (h : ¬ a = v) :
    firstIdx (a :: rest) v = firstIdx rest v + 1 := by
  simp [firstIdx, h]

/-- `dedupAux` keeps first occurrences: its output is strictly increasing in
first-occurrence position within the scanned list. -/
theorem dedupAux_pairwise {α : Type} [DecidableEq α] (l : List α) :
    ∀ seen : List α, (dedupAux seen l).Pairwise (fun a b => firstIdx l a < firstIdx l b) := by
  induction l with
  | nil => intro seen; simp [dedupAux]
  | cons v rest ih =>
    intro seen
    by_cases hv : v ∈ seen
    · rw [dedupAux, if_pos hv]
      refine List.Pairwise.imp_of_mem ?_ (ih seen)
      intro a b ha hb hab
      have ha2 := mem_dedupAux rest seen a ha
      have hb2 := mem_dedupAux rest seen b hb
      have hav : ¬ v = a := fun e => ha2.2 (e ▸ hv)
      have hbv : ¬ v = b := fun e => hb2.2 (e ▸ hv)
      rw [firstIdx_cons_ne _ hav, firstIdx_cons_ne _ hbv]
      exact Nat.succ_lt_succ hab
    · rw [dedupAux, if_neg hv]
      refine List.pairwise_cons.mpr ⟨?_, ?_⟩
      · intro b hb
        have hb2 := mem_dedupAux rest (v :: seen) b hb
        have hbv : ¬ v = b := fun e => hb2.2 (e ▸ List.mem_cons_self v seen)
        rw [firstIdx_cons_self, firstIdx_cons_ne _ hbv]
        exact Nat.succ_pos _
      · refine List.Pairwise.imp_of_mem ?_ (ih (v :: seen))
        intro a b ha hb hab
        have ha2 := mem_dedupAux rest (v :: seen) a ha
        have hb2 := mem_dedupAux rest (v :: seen) b hb
        have hav : ¬ v = a := fun e => ha2.2 (e ▸ List.mem_cons_self v seen)
        have hbv : ¬ v = b := fun e => hb2.2 (e ▸ List.mem_cons_self v seen)
        rw [firstIdx_cons_ne _ hav, firstIdx_cons_ne _ hbv]
        exact Nat.succ_lt_succ hab

/-- The cleaned (stripped, non-empty, pre-deduplication) value list that the
extractor scans for the resolved column; empty when no column resolves. -/
def cleanedOf (t : Table) (slicer : Str) : List Str :=
  match resolveGU (colNames t) slicer with
  | some col => cleanedCells (colCells t col)
  | none => []

/-- Claim C5: the extracted value list never contains the empty string, never
contains a value whose lower-cased form has a noise term as a substring, has no
duplicates, and keeps distinct values in first-seen order (strictly increasing
first-occurrence positions in the cleaned column values). -/
theorem extractor_invariants (t : Table) (slicer : Str) :
    (∀ v ∈ get_unique_slicer_values t slicer, v ≠ [] ∧ hasNoise v = false) ∧
    (get_unique_slicer_values t slicer).Nodup ∧
    (get_unique_slicer_values t slicer).Pairwise
      (fun a b => firstIdx (cleanedOf t slicer) a < firstIdx (cleanedOf t slicer) b) := by
  unfold get_unique_slicer_values cleanedOf
  rcases resolveGU (colNames t) slicer with _ | col
  · simp
  · unfold extractValues
    refine ⟨?_, ?_, ?_⟩
    · intro v hv
      have hv2 := List.mem_filter.mp hv
      constructor
      · have hv3 := (mem_dedupAux _ _ _ hv2.1).1
        have hv4 := List.mem_filter.mp hv3
        intro hnil
        rw [hnil] at hv4
        simp at hv4
      · simpa using hv2.2
    · exact List.Nodup.sublist (List.filter_sublist _) (dedupAux_nodup _ _)
    · exact List.Pairwise.sublist (List.filter_sublist _) (dedupAux_pairwise _ _)

/-- A column with whitespace, a missing entry, a duplicate, a noise label and
an empty string, exercising every cleaning rule of the extractor. -/
def tExtract : Table :=
  ⟨[("Region".toList, Dtype.text)],
   [[Cell.str " A ".toList], [Cell.missing], [Cell.str "A".toList],
    [Cell.str "Grand Total".toList], [Cell.str "".toList], [Cell.str "B".toList]]⟩

theorem extractor_invariants_witness :
    ("A".toList ≠ [] ∧ hasNoise "A".toList = false) ∧
    (get_unique_slicer_values tExtract "Region".toList).Nodup :=
  ⟨(extractor_invariants tExtract "Region".toList).1 "A".toList (by decide),
   (extractor_invariants tExtract "Region".toList).2.1⟩

theorem cons_beq_false {a b : Char} (as bs : Str) (h : ¬ a = b) :
    ((a :: as : Str) == (b :: bs)) = false := by
  have hab : (a == b) = false := by
    rcases hv : a == b with _ | _
    · rfl
    · exact absurd (eq_of_beq hv) h
  show List.beq (a :: as) (b :: bs) = false
  rw [List.beq, hab]
  rfl

theorem fdName_beq_sumName (sheet : Str) : (fdName sheet == sumName sheet) = false := by
  show (('F' :: ("iltered_Data_".toList ++ sheet)) == ('S' :: ("ummary_".toList ++ sheet))) = false
  exact cons_beq_false _ _ (by decide)

theorem sumName_beq_fdName (sheet : Str) : (sumName sheet == fdName sheet) = false := by
  show (('S' :: ("ummary_".toList ++ sheet)) == ('F' :: ("iltered_Data_".toList ++ sheet))) = false
  exact cons_beq_false _ _ (by decide)

/-- The one-numeric-column table of the spec example ([10, 20, 30]). -/
def t123 : Table :=
  ⟨[("Val".toList, Dtype.numeric)], [[Cell.num 10], [Cell.num 20], [Cell.num 30]]⟩

/-- Claim C7: on a narrowed table with at least one row, the PivotResult holds
a numeric-summary entry exactly when the table has a numeric column; the
summary has one row per numeric column, and on the table with one numeric
column holding [10, 20, 30] that row is Metric="Val", Sum=60, Average=20,
Count=3, Min=10, Max=30. -/
theorem numeric_summary_correct :
    (∀ (sheet : Str) (t : Table) (fs : List (Str × Str)),
      0 < (applyFilters t fs).rows.length →
      (((refresh_pivot_and_read sheet t fs).lookup (sumName sheet) = none ↔
          numericHeaders (applyFilters t fs) = []) ∧
        (∀ st, (refresh_pivot_and_read sheet t fs).lookup (sumName sheet) = some st →
          st = summaryTable (applyFilters t fs) ∧
          st.rows.length = (numericHeaders (applyFilters t fs)).length))) ∧
    (refresh_pivot_and_read "S".toList t123 []).lookup (sumName "S".toList) =
      some ⟨summaryHeaders, [[Cell.str "Val".toList, Cell.num 60, Cell.num 20, Cell.num 3,
        Cell.num 10, Cell.num 30]]⟩ := by
  constructor
  · intro sheet t fs hrows
    by_cases hn : 0 < (numericHeaders (applyFilters t fs)).length
    · have hres : refresh_pivot_and_read sheet t fs =
          [(fdName sheet, applyFilters t fs), (sumName sheet, summaryTable (applyFilters t fs))] := by
        simp [refresh_pivot_and_read, hrows, hn]
      have hlookup : (refresh_pivot_and_read sheet t fs).lookup (sumName sheet) =
          some (summaryTable (applyFilters t fs)) := by
        rw [hres]
        simp [List.lookup, sumName_beq_fdName]
      constructor
      · rw [hlookup]
        constructor
        · intro hnone
          cases hnone
        · intro hnil
          rw [hnil] at hn
          cases hn
      · intro st hst
        rw [hlookup] at hst
        obtain rfl := Option.some_inj.mp hst
        refine ⟨rfl, ?_⟩
        unfold summaryTable
        exact List.length_map _ _
    · have hnil : numericHeaders (applyFilters t fs) = [] :=
        List.length_eq_zero.mp (Nat.eq_zero_of_not_pos hn)
      have hres : refresh_pivot_and_read sheet t fs = [(fdName sheet, applyFilters t fs)] := by
        simp [refresh_pivot_and_read, hrows, hn]
      have hlookup : (refresh_pivot_and_read sheet t fs).lookup (sumName sheet) = none := by
        rw [hres]
        simp [List.lookup, sumName_beq_fdName]
      rw [hlookup]
      exact ⟨⟨fun _ => hnil, fun _ => rfl⟩, fun st hst => by cases hst⟩
  · simp only [refresh_pivot_and_read, applyFilters, List.foldl_nil, numericHeaders, summaryTable,
      colStats, colCells, colNames, colSum, numsOf, colCount, colMeanCell, colMinCell, colMaxCell,
      isNA, t123, summaryHeaders]
    norm_num [List.lookup, sumName, fdName, List.filter, List.indexOf, List.findIdx, List.findIdx.go,
      List.filterMap_cons, min_def, max_def]
    intro h
    simp at h

theorem numeric_summary_correct_witness :
    ((refresh_pivot_and_read "S".toList t123 []).lookup (sumName "S".toList) = none ↔
      numericHeaders (applyFilters t123 []) = []) :=
  (numeric_summary_correct.1 "S".toList t123 [] (by decide)).1

theorem infix_joinNL {p : Str} : ∀ {parts : List Str}, p ∈ parts → p <:+: joinNL parts := by
  intro parts
  induction parts with
  | nil => intro h; cases h
  | cons q rest ih =>
    intro hp
    rcases List.mem_cons.mp hp with rfl | hp2
    · cases rest with
      | nil => exact ⟨[], [], by simp [joinNL]⟩
      | cons r rs => exact ⟨[], '\n' :: joinNL (r :: rs), rfl⟩
    · cases rest with
      | nil => cases hp2
      | cons r rs =>
        obtain ⟨s, u, hs⟩ := ih hp2
        refine ⟨q ++ '\n' :: s, u, ?_⟩
        show (q ++ '\n' :: s) ++ p ++ u = q ++ '\n' :: joinNL (r :: rs)
        rw [← hs]
        simp

theorem infix_append_left {x b : Str} (a : Str) (h : x <:+: b) : x <:+: a ++ b := by
  obtain ⟨s, u, rfl⟩ := h
  exact ⟨a ++ s, u, by simp⟩

/-- The record-count line is always the second entry of the fallback text, so
the decimal row count occurs in the generated fallback analysis. -/
theorem rowcount_infix_fallback (t : Table) :
    natRepr t.rows.length <:+: generate_fallback_analysis t := by
  have hmem : ("- Dataset contains ".toList ++ natRepr t.rows.length ++
      " records across ".toList ++ natRepr t.headers.length ++ " fields".toList) ∈
      fallbackParts t := by
    unfold fallbackParts
    apply List.mem_append_left
    apply List.mem_append_left
    apply List.mem_append_left
    apply List.mem_append_left
    exact List.mem_cons_of_mem _ (List.mem_cons_self _ _)
  have h2 : natRepr t.rows.length <:+: ("- Dataset contains ".toList ++
      natRepr t.rows.length ++ " records across ".toList ++ natRepr t.headers.length ++
      " fields".toList) := by
    refine ⟨"- Dataset contains ".toList, " records across ".toList ++
      natRepr t.headers.length ++ " fields".toList, ?_⟩
    simp
  exact h2.trans (infix_joinNL hmem)

/-- Claim C9: when the external analysis call fails on a non-empty table,
`analyze_dataframe` returns (it never raises) a non-empty text containing the
decimal row count of the table, and the locally computed fallback text is
itself total and non-empty. -/
theorem fallback_on_error (t : Table) (e : Str) (ht : 0 < t.rows.length) :
    analyze_dataframe (Except.error e) t ≠ [] ∧
    isSub (natRepr t.rows.length) (analyze_dataframe (Except.error e) t) = true ∧
    generate_fallback_analysis t ≠ [] := by
  refine ⟨List.cons_ne_nil _ _, ?_, List.cons_ne_nil _ _⟩
  exact isSub_intro (infix_append_left _ (rowcount_infix_fallback t))

theorem fallback_on_error_witness :
    analyze_dataframe (Except.error "boom".toList) tRegion ≠ [] ∧
    isSub (natRepr tRegion.rows.length) (analyze_dataframe (Except.error "boom".toList) tRegion) = true ∧
    generate_fallback_analysis tRegion ≠ [] :=
  fallback_on_error tRegion "boom".toList (by decide)

end ExcelAnalyzer
